import Mathlib

set_option maxRecDepth 8000

/-!
Shallow embedding of the Jinja2 SQL template analyzer found in
scripts/jinja2-simple-processor.py.  Python regular-expression scans are
modelled by explicit character-list scanners reproducing the leftmost,
non-overlapping matching discipline of the `re` module for the concrete
patterns used by the source.  The external template engine (jinja2) is
out of repository scope and is modelled as an oracle record, matching the
boundary the system design gives it: parse either reports a syntax error
with a message and line number or succeeds, and render either produces
text or fails.
-/

/-- Python whitespace class (ASCII part), as matched by a backslash-s class. -/
def wsp (c : Char) : Bool :=
  c == ' ' || c == '\t' || c == '\n' || c == '\r' || c == '\x0b' || c == '\x0c'

/-- Python word-character class (ASCII part): letters, digits, underscore. -/
def wordChar (c : Char) : Bool := c.isAlpha || c.isDigit || c == '_'

/-- First character of a Python identifier. -/
def identStart (c : Char) : Bool := c.isAlpha || c == '_'

/-- Any character of a Python identifier. -/
def identChar (c : Char) : Bool := c.isAlpha || c.isDigit || c == '_'

/-- Python str.strip on a character list. -/
def pyStrip (cs : List Char) : List Char :=
  ((cs.dropWhile wsp).reverse.dropWhile wsp).reverse

/-- hasPre pat s: pat is a leading segment of s. -/
def hasPre : List Char → List Char → Bool
  | [], _ => true
  | _ :: _, [] => false
  | a :: as, b :: bs => a == b && hasPre as bs

/-- hasSub pat s: pat occurs contiguously inside s (Python's `in` operator). -/
def hasSub (pat : List Char) : List Char → Bool
  | [] => pat.isEmpty
  | c :: cs => hasPre pat (c :: cs) || hasSub pat cs

/-- strHas s pat: the string s contains pat as a substring. -/
def strHas (s pat : String) : Bool := hasSub pat.data s.data

/-- Index of the first occurrence of pat in s, if any. -/
def findIdx (pat : List Char) : List Char → Option Nat
  | [] => if pat.isEmpty then some 0 else none
  | c :: cs => if hasPre pat (c :: cs) then some 0 else (findIdx pat cs).map (· + 1)

/-- pat occurs at index i of cs. -/
def subAt (cs pat : List Char) (i : Nat) : Bool := hasPre pat (cs.drop i)

/-- First occurrence of pat at index i or later. -/
def findFrom (cs pat : List Char) (i : Nat) : Option Nat :=
  (findIdx pat (cs.drop i)).map (· + i)

/-- The character at index i is exactly c. -/
def charAtIs (cs : List Char) (i : Nat) (c : Char) : Bool :=
  match cs.get? i with
  | some x => x == c
  | none => false

/-- The character at index i exists and is whitespace. -/
def wsAt (cs : List Char) (i : Nat) : Bool :=
  match cs.get? i with
  | some x => wsp x
  | none => false

/-- First index at or after i holding a non-whitespace character (or the length):
the end of the maximal whitespace run a greedy whitespace-star consumes. -/
def wsRunEnd (cs : List Char) (i : Nat) : Nat := i + ((cs.drop i).takeWhile wsp).length

/-- The half-open segment of cs from index a to index b. -/
def seg (cs : List Char) (a b : Nat) : List Char := (cs.drop a).take (b - a)

/-- Python str.lower (ASCII). -/
def lowerL (cs : List Char) : List Char := cs.map Char.toLower

/-- Index of the last occurrence of character c in l, if any. -/
def lastIdxOf (c : Char) (l : List Char) : Option Nat :=
  match findIdx [c] l.reverse with
  | some k => some (l.length - 1 - k)
  | none => none

/-- Characters strictly before the first occurrence of c (Python split-take-first). -/
def takeUntil (c : Char) (cs : List Char) : List Char := cs.takeWhile (· != c)

/-- Helper for splitLines: push a character onto the first line. -/
def consHead (c : Char) : List (List Char) → List (List Char)
  | [] => [[c]]
  | l :: ls => (c :: l) :: ls

/-- Python str.split on a newline: the empty text yields one empty line. -/
def splitLines : List Char → List (List Char)
  | [] => [[]]
  | c :: cs => if c = '\n' then [] :: splitLines cs else consHead c (splitLines cs)

/-- Python newline join. -/
def joinLines : List (List Char) → List Char
  | [] => []
  | [l] => l
  | l :: l2 :: ls => l ++ '\n' :: joinLines (l2 :: ls)

/-! ### Regular-expression emulation

Each scanner below reproduces, for one concrete pattern of the source, the
semantics of Python's re module: leftmost match, non-overlapping iteration
for finditer/sub, greedy whitespace runs with the backtracking the pattern
admits, and lazy dot-star resolved to the nearest viable terminator. -/

/-- One match attempt, at index p, of the expression-site pattern
(open double brace, lazy non-brace body, close double brace).  Returns the
raw body (group before stripping) and the resume index after the match. -/
def exprMatchAt (cs : List Char) (p : Nat) : Option (List Char × Nat) :=
  if subAt cs ['\x7b', '\x7b'] p then
    match findFrom cs ['\x7d'] (p + 2) with
    | some j =>
      if p + 2 < j && charAtIs cs (j + 1) '\x7d' then some (seg cs (p + 2) j, j + 2)
      else none
    | none => none
  else none

/-- Fuelled leftmost non-overlapping iteration of a match function
(re.finditer).  Fuel of one more than the length is always sufficient
because every step advances the position. -/
def iterMatches (cs : List Char) (matchAt : Nat → Option (List Char × Nat)) :
    Nat → Nat → List (List Char)
  | 0, _ => []
  | fuel + 1, p =>
    if p < cs.length then
      match matchAt p with
      | some (m, r) => m :: iterMatches cs matchAt fuel r
      | none => iterMatches cs matchAt fuel (p + 1)
    else []

/-- All expression-site bodies of the text, in match order. -/
def exprScan (cs : List Char) : List (List Char) :=
  iterMatches cs (exprMatchAt cs) (cs.length + 1) 0

/-- One match attempt of the conditional-tag pattern used by the variable
extractor and the first fallback cleanup (open brace-percent, optional
whitespace, the word if, mandatory whitespace, lazy non-percent body,
optional whitespace, percent-close-brace).  Returns the raw guard region
and the resume index. -/
def condMatchAt (cs : List Char) (p : Nat) : Option (List Char × Nat) :=
  if subAt cs ['\x7b', '%'] p then
    let b := wsRunEnd cs (p + 2)
    if subAt cs ['i', 'f'] b then
      let c := b + 2
      if wsAt cs c then
        match findFrom cs ['%'] c with
        | some j =>
          if c + 2 ≤ j && charAtIs cs (j + 1) '\x7d' then some (seg cs c j, j + 2)
          else none
        | none => none
      else none
    else none
  else none

/-- All conditional guard regions of the text, in match order. -/
def condScan (cs : List Char) : List (List Char) :=
  iterMatches cs (condMatchAt cs) (cs.length + 1) 0

/-- One match attempt of the looser guard search used by the line scanner
(open brace-percent, optional whitespace, the word if, mandatory
whitespace, lazy any-character body, optional whitespace, percent-close).
The body may contain percent and close-brace characters, so the match ends
at the first percent-close pair the backtracking engine can reach: the
first one past the greedy mandatory-whitespace run, or, failing that, the
pair sitting directly at the end of that run when at least two whitespace
characters precede it.  Returns the stripped guard text. -/
def matchIfAt (cs : List Char) (p : Nat) : Option (List Char) :=
  if subAt cs ['\x7b', '%'] p then
    let b := wsRunEnd cs (p + 2)
    if subAt cs ['i', 'f'] b then
      let c := b + 2
      let w := wsRunEnd cs c
      if c < w then
        match findFrom cs ['%', '\x7d'] (w + 1) with
        | some j => some (pyStrip (seg cs c j))
        | none =>
          if c + 2 ≤ w && subAt cs ['%', '\x7d'] w then some (pyStrip (seg cs c w))
          else none
      else none
    else none
  else none

/-- Fuelled leftmost search for the looser guard pattern (re.search). -/
def searchIfAux (cs : List Char) : Nat → Nat → Option (List Char)
  | 0, _ => none
  | fuel + 1, p =>
    match matchIfAt cs p with
    | some cond => some cond
    | none => if p < cs.length then searchIfAux cs fuel (p + 1) else none

/-- The stripped guard of the first loose conditional tag of a line, if any. -/
def searchIfCond (cs : List Char) : Option (List Char) :=
  searchIfAux cs (cs.length + 1) 0

/-- Fuelled generic re.sub scan: where the step matches, emit its output and
jump to its resume index; elsewhere copy one character. -/
def scanSub (cs : List Char) (step : Nat → Option (List Char × Nat)) :
    Nat → Nat → List Char
  | 0, _ => []
  | fuel + 1, p =>
    if p < cs.length then
      match step p with
      | some (out, r) => out ++ scanSub cs step fuel r
      | none => cs.getD p ' ' :: scanSub cs step fuel (p + 1)
    else []

/-- One match attempt of the endif-tag pattern (open brace-percent, optional
whitespace, the word endif, optional whitespace, percent-close-brace).
Returns the resume index. -/
def endifMatchAt (cs : List Char) (p : Nat) : Option Nat :=
  if subAt cs ['\x7b', '%'] p then
    let b := wsRunEnd cs (p + 2)
    if subAt cs ['e', 'n', 'd', 'i', 'f'] b then
      let d := wsRunEnd cs (b + 5)
      if subAt cs ['%', '\x7d'] d then some (d + 2) else none
    else none
  else none

/-- The zero-width lookahead for an opening endif tag (open brace-percent,
optional whitespace, the word endif) holds at index q. -/
def lookEndifAt (cs : List Char) (q : Nat) : Bool :=
  subAt cs ['\x7b', '%'] q && subAt cs ['e', 'n', 'd', 'i', 'f'] (wsRunEnd cs (q + 2))

/-- Fuelled search for the first index at or after q where the endif
lookahead holds. -/
def findLook (cs : List Char) : Nat → Nat → Option Nat
  | 0, _ => none
  | fuel + 1, q =>
    if q ≤ cs.length then
      if lookEndifAt cs q then some q else findLook cs fuel (q + 1)
    else none

/-- One match attempt of the else-block pattern (open brace-percent, optional
whitespace, the word else, optional whitespace, a percent, then a lazy
dot-all body up to a lookahead for an endif tag).  Returns the resume
index, which the lookahead leaves at the endif tag itself. -/
def elseMatchAt (cs : List Char) (p : Nat) : Option Nat :=
  if subAt cs ['\x7b', '%'] p then
    let b := wsRunEnd cs (p + 2)
    if subAt cs ['e', 'l', 's', 'e'] b then
      let d := wsRunEnd cs (b + 4)
      if charAtIs cs d '%' then findLook cs (cs.length + 1) (d + 1) else none
    else none
  else none

/-- One match attempt of the elif-block pattern (open brace-percent, optional
whitespace, the word elif, mandatory whitespace, lazy non-percent guard
body, a percent, then a lazy dot-all body up to an endif lookahead). -/
def elifMatchAt (cs : List Char) (p : Nat) : Option Nat :=
  if subAt cs ['\x7b', '%'] p then
    let b := wsRunEnd cs (p + 2)
    if subAt cs ['e', 'l', 'i', 'f'] b then
      let c := b + 4
      if wsAt cs c then
        match findFrom cs ['%'] c with
        | some j => if c + 2 ≤ j then findLook cs (cs.length + 1) (j + 1) else none
        | none => none
      else none
    else none
  else none

/-- One match attempt of the blank-run pattern (newline, greedy whitespace,
newline, greedy whitespace, newline): it fires when the whitespace run
after a newline contains at least two further newlines, consumes up to the
last of them, and is replaced by two newlines. -/
def collapseMatchAt (cs : List Char) (p : Nat) : Option (List Char × Nat) :=
  if charAtIs cs p '\n' then
    let m := wsRunEnd cs (p + 1)
    let inner := seg cs (p + 1) m
    if 2 ≤ inner.count '\n' then
      match lastIdxOf '\n' inner with
      | some k => some (['\n', '\n'], p + 1 + k + 1)
      | none => none
    else none
  else none

/-- One match attempt of the multiline edge-strip pattern (anchored leading
whitespace run, or a trailing whitespace run ending at a line end).  At a
line start a greedy whitespace run (newlines included) is deleted; elsewhere
a whitespace run is deleted when it reaches the end of the text, or up to
the last newline inside it otherwise. -/
def stripEdgesMatchAt (cs : List Char) (p : Nat) : Option (List Char × Nat) :=
  if wsAt cs p then
    if p = 0 || charAtIs cs (p - 1) '\n' then some ([], wsRunEnd cs p)
    else
      let m := wsRunEnd cs p
      if m = cs.length then some ([], m)
      else
        match lastIdxOf '\n' (seg cs (p + 1) m) with
        | some k => some ([], p + 1 + k)
        | none => none
  else none

/-! ### Data model -/

/-- A JSON-representable demo value (the analyzer itself only ever produces
integers, strings and booleans; the array constructor models JSON arrays a
caller-supplied override could carry). -/
inductive JValue where
  | intV (n : Int)
  | strV (s : String)
  | boolV (b : Bool)
  | listV (elems : List String)
deriving DecidableEq, Repr

/-- Information about one discovered template variable. -/
structure VariableInfo where
  name : String
  type : String
  default_value : JValue
deriving DecidableEq, Repr

/-- Result of one template analysis.  The field vars carries the result's
variable list (the source calls the field variables, a reserved word
here). -/
structure ProcessResult where
  success : Bool
  vars : List VariableInfo
  demo_sql : Option String
  error : Option String
  has_conditionals : Bool
  has_loops : Bool
deriving DecidableEq, Repr

/-- The external template engine at its specified boundary: parse reports a
syntax error message and line number or succeeds; the undeclared-variable
query yields the names the real parse finds; render yields text or fails. -/
structure Engine where
  parse : String → Option (String × Nat)
  findUndeclared : String → List String
  render : String → List (String × JValue) → Option String

/-! ### Type Inferencer -/

/-- A word-boundary holds at index i of cs (Python backslash-b). -/
def boundaryAt (cs : List Char) (i : Nat) : Bool :=
  (decide (0 < i) && (match cs.get? (i - 1) with
    | some x => wordChar x
    | none => false))
  != (match cs.get? i with
    | some x => wordChar x
    | none => false)

/-- Word w occurs at index i of cs with a word boundary on both sides. -/
def matchWordAt (cs w : List Char) (i : Nat) : Bool :=
  subAt cs w i && boundaryAt cs i && boundaryAt cs (i + w.length)

/-- Some word of the list occurs somewhere in cs between word boundaries:
the boundary-delimited alternation search of the type-inference patterns. -/
def matchesWordList (words : List String) (cs : List Char) : Bool :=
  (List.range (cs.length + 1)).any fun i => words.any fun w => matchWordAt cs w.data i

def integerWords : List String :=
  ["age", "count", "limit", "offset", "id", "num", "amount", "total", "quantity", "number"]

def booleanWords : List String :=
  ["is_", "has_", "can_", "should_", "will_", "enabled", "disabled", "active", "inactive"]

def dateWords : List String :=
  ["date", "time", "created", "updated", "birth", "start", "end", "begin", "finish", "datetime"]

def stringWords : List String :=
  ["name", "email", "username", "title", "description", "text", "status", "uuid", "id"]

/-- Infer a variable's type from its lowercased name (the context parameter
is accepted but, as in the source, not consulted). -/
def inferVariableType (varName : String) (_context : String) : String :=
  if matchesWordList integerWords (lowerL varName.data) then "integer"
  else if matchesWordList booleanWords (lowerL varName.data) then "boolean"
  else if matchesWordList dateWords (lowerL varName.data) then "date"
  else if matchesWordList stringWords (lowerL varName.data) then "string"
  else "string"

/-- The defaults dictionary of the demo-literal table. -/
def defaultsGet (varType : String) : JValue :=
  if varType == "integer" then JValue.intV 42
  else if varType == "string" then JValue.strV "\x27demo_value\x27"
  else if varType == "boolean" then JValue.boolV true
  else if varType == "date" then JValue.strV "\x272024-01-01\x27"
  else JValue.strV "\x27demo_value\x27"

/-- The canonical demo literal of a type.  The two inner branches test the
literal words limit and offset against the type name itself, as the source
does; they can never fire. -/
def getDefaultValue (varType : String) : JValue :=
  if varType == "integer" then
    if hasSub "limit".data (lowerL varType.data) then JValue.intV 10
    else if hasSub "offset".data (lowerL varType.data) then JValue.intV 0
    else defaultsGet varType
  else defaultsGet varType

/-! ### Variable Extractor -/

/-- Reduce a raw expression to its base variable: text before the first
pipe, stripped; then before the first dot; then either an identifier head
followed by an opening bracket, or a full identifier. -/
def extractBaseVariable (expression : String) : Option String :=
  let expr := pyStrip (takeUntil '|' expression.data)
  let base := takeUntil '.' expr
  match base with
  | [] => none
  | c :: rest =>
    if identStart c then
      match rest.dropWhile identChar with
      | '[' :: _ => some (String.mk (c :: rest.takeWhile identChar))
      | [] => some (String.mk (c :: rest))
      | _ :: _ => none
    else none

/-- Split into maximal word-character runs; an empty run marks a separator. -/
def splitRuns (cs : List Char) : List (List Char) :=
  (cs.foldr
    (fun c acc =>
      if wordChar c then
        match acc with
        | [] => [[c]]
        | r :: rs => (c :: r) :: rs
      else [] :: acc)
    []).filter (· ≠ [])

/-- All identifier-like words of a guard, in order with duplicates (the
boundary-delimited identifier findall): maximal word runs whose first
character can start an identifier. -/
def findIdentifiers (cs : List Char) : List String :=
  (splitRuns cs).filterMap fun r =>
    match r with
    | c :: _ => if identStart c then some (String.mk r) else none
    | [] => none

def reservedWords : List String :=
  ["if", "elif", "else", "endif", "not", "and", "or", "in", "is", "defined"]

/-- Candidate variable names of every conditional guard, in order, duplicates
kept, reserved words removed. -/
def extractConditionalVariables (tc : String) : List String :=
  (condScan tc.data).flatMap fun m =>
    (findIdentifiers (pyStrip m)).filter fun n => !reservedWords.contains n

/-- The name an expression-site body contributes, after the base-variable
reduction and the known-variable filter (an empty known set admits all). -/
def exprNameOf (kv : List String) (m : List Char) : Option String :=
  match extractBaseVariable (String.mk (pyStrip m)) with
  | some base => if kv.isEmpty || kv.contains base then some base else none
  | none => none

/-- Build one VariableInfo the way both extraction loops do. -/
def mkVar (tc : String) (n : String) : VariableInfo :=
  let t := inferVariableType n tc
  ⟨n, t, getDefaultValue t⟩

/-- The expression-site extraction loop, threading the seen set; returns the
final seen set and the variables added. -/
def extractVarsExpr (tc : String) (kv : List String) :
    List String → List (List Char) → List String × List VariableInfo
  | seen, [] => (seen, [])
  | seen, m :: ms =>
    match exprNameOf kv m with
    | some base =>
      if seen.contains base then extractVarsExpr tc kv seen ms
      else
        ((extractVarsExpr tc kv (base :: seen) ms).1,
          mkVar tc base :: (extractVarsExpr tc kv (base :: seen) ms).2)
    | none => extractVarsExpr tc kv seen ms

/-- The conditional-name extraction loop, threading the same seen set. -/
def extractVarsCond (tc : String) : List String → List String → List VariableInfo
  | _, [] => []
  | seen, n :: ns =>
    if seen.contains n then extractVarsCond tc seen ns
    else mkVar tc n :: extractVarsCond tc (n :: seen) ns

/-- Extract the ordered deduplicated variable list of a template: the
expression-site pass runs first, then the conditional pass continues with
the same seen set. -/
def extractVariables (tc : String) (kv : List String) : List VariableInfo :=
  (extractVarsExpr tc kv [] (exprScan tc.data)).2 ++
    extractVarsCond tc (extractVarsExpr tc kv [] (exprScan tc.data)).1
      (extractConditionalVariables tc)

/-! ### Conditional Block Simplifier -/

def includeKeywords : List String :=
  ["show_", "enable_", "has_", "is_", "filter_", "include_",
   "!=", ">=", "<=", ">", "<", "not null", "is not",
   "limit", "offset", "order", "group", "where"]

def excludeKeywords : List String :=
  ["debug", "dev", "test", "development", "verbose", "logging", "trace"]

/-- Decide whether a conditional block is kept in the demo SQL: the exclude
keywords are checked first, then the include keywords, and the default is
to include. -/
def shouldIncludeCondition (condition : String) : Bool :=
  let cl := lowerL condition.data
  if excludeKeywords.any fun k => hasSub k.data cl then false
  else if includeKeywords.any fun k => hasSub k.data cl then true
  else true

def ifTagL : List Char := ['\x7b', '%', ' ', 'i', 'f']
def endifTagL : List Char := ['\x7b', '%', ' ', 'e', 'n', 'd', 'i', 'f']
def elseTagL : List Char := ['\x7b', '%', ' ', 'e', 'l', 's', 'e']
def elifTagL : List Char := ['\x7b', '%', ' ', 'e', 'l', 'i', 'f']

/-- The else-branch skip of an included block: drop lines up to and
including the first line containing an endif fragment, with no nesting
bookkeeping. -/
def skipToEndif : List (List Char) → List (List Char)
  | [] => []
  | l :: ls => if hasSub endifTagL l then ls else skipToEndif ls

/-- Scan the interior of an included block: collect lines while tracking the
nesting counter, stop at the depth-zero endif line (dropped), and on a
depth-zero else or elif line stop and skip to the first endif line.
Returns the collected interior and the remaining lines. -/
def includeScan : Nat → List (List Char) → List (List Char) × List (List Char)
  | _, [] => ([], [])
  | n, l :: ls =>
    if hasSub ifTagL l then
      ((includeScan (n + 1) ls).1.cons l, (includeScan (n + 1) ls).2)
    else if hasSub endifTagL l then
      if n = 0 then ([], ls)
      else ((includeScan (n - 1) ls).1.cons l, (includeScan (n - 1) ls).2)
    else if hasSub elseTagL l || hasSub elifTagL l then
      if n = 0 then ([], skipToEndif ls)
      else ((includeScan n ls).1.cons l, (includeScan n ls).2)
    else ((includeScan n ls).1.cons l, (includeScan n ls).2)

/-- Skip an excluded block entirely: drop lines while tracking the nesting
counter until the depth-zero endif line, which is dropped too. -/
def excludeScan : Nat → List (List Char) → List (List Char)
  | _, [] => []
  | n, l :: ls =>
    if hasSub ifTagL l then excludeScan (n + 1) ls
    else if hasSub endifTagL l then
      if n = 0 then ls else excludeScan (n - 1) ls
    else excludeScan n ls

/-- The fuelled outer line scan of the simplifier: a line carrying an
if-tag fragment whose guard parses is resolved by the inclusion heuristic;
a line whose guard does not parse, and every other line, is copied. -/
def simplifyAux : Nat → List (List Char) → List (List Char)
  | 0, _ => []
  | _ + 1, [] => []
  | fuel + 1, line :: rest =>
    if hasSub ifTagL line then
      match searchIfCond line with
      | some cond =>
        if shouldIncludeCondition (String.mk cond) then
          (includeScan 0 rest).1 ++ simplifyAux fuel (includeScan 0 rest).2
        else simplifyAux fuel (excludeScan 0 rest)
      | none => line :: simplifyAux fuel rest
    else line :: simplifyAux fuel rest

/-- Fallback cleanup pass one: delete every simple if-tag. -/
def subIfTags (cs : List Char) : List Char :=
  scanSub cs (fun p => (condMatchAt cs p).map fun pr => ([], pr.2)) (cs.length + 1) 0

/-- Fallback cleanup pass two: delete every endif tag. -/
def subEndifTags (cs : List Char) : List Char :=
  scanSub cs (fun p => (endifMatchAt cs p).map fun r => (([] : List Char), r)) (cs.length + 1) 0

/-- Fallback cleanup pass three: delete every else fragment together with
everything up to the next endif lookahead. -/
def subElseBlocks (cs : List Char) : List Char :=
  scanSub cs (fun p => (elseMatchAt cs p).map fun r => (([] : List Char), r)) (cs.length + 1) 0

/-- Fallback cleanup pass four: likewise for elif fragments. -/
def subElifBlocks (cs : List Char) : List Char :=
  scanSub cs (fun p => (elifMatchAt cs p).map fun r => (([] : List Char), r)) (cs.length + 1) 0

/-- Whitespace cleanup pass: collapse runs of three or more newlines. -/
def collapseBlank (cs : List Char) : List Char :=
  scanSub cs (collapseMatchAt cs) (cs.length + 1) 0

/-- Whitespace cleanup pass: strip leading and trailing whitespace of every
line (multiline anchors). -/
def stripLineEdges (cs : List Char) : List Char :=
  scanSub cs (stripEdgesMatchAt cs) (cs.length + 1) 0

/-- The Conditional Block Simplifier: line scan, four fallback tag-removal
passes, blank-line collapse, per-line edge strip, final strip. -/
def simplifyConditionalsForDemo (tc : String) : String :=
  let lines := splitLines tc.data
  let r1 := joinLines (simplifyAux lines.length lines)
  let r2 := subElifBlocks (subElseBlocks (subEndifTags (subIfTags r1)))
  String.mk (pyStrip (stripLineEdges (collapseBlank r2)))

/-! ### Demo Renderer and Analysis Aggregator -/

/-- A rendered-output line is kept when its stripped form is nonempty and is
not a template comment. -/
def keepLine (l : List Char) : Bool :=
  !(pyStrip l).isEmpty && !hasPre ['\x7b', '#'] (pyStrip l)

/-- The Demo Renderer: delegate to the engine's render; on success drop
blank and comment lines; on failure return the input text unchanged. -/
def renderTemplate (rnd : String → List (String × JValue) → Option String)
    (tc : String) (vals : List (String × JValue)) : String :=
  match rnd tc vals with
  | none => tc
  | some result => String.mk (joinLines ((splitLines result.data).filter keepLine))

/-- The template text contains an if or elif tag fragment. -/
def hasConditionalsIn (tc : String) : Bool :=
  strHas tc "\x7b% if" || strHas tc "\x7b% elif"

/-- The template text contains a for tag fragment. -/
def hasLoopsIn (tc : String) : Bool := strHas tc "\x7b% for"

/-- The template handed to the Demo Renderer: simplified only when a
conditional fragment is present. -/
def simplifiedTemplate (tc : String) : String :=
  if hasConditionalsIn tc then simplifyConditionalsForDemo tc else tc

/-- The demo-value mapping generated from the variable list. -/
def generateDemoValues (tc : String) (kv : List String) : List (String × JValue) :=
  (extractVariables tc kv).map fun v => (v.name, v.default_value)

/-- The Analysis Aggregator: a parse failure aborts with the engine's
message and line number embedded; otherwise extraction, simplification and
demo rendering populate a successful result.  (The source's catch-all
processing-error arm guards arms that cannot fire in this pure pipeline.) -/
def analyzeTemplate (env : Engine) (tc : String) : ProcessResult :=
  match env.parse tc with
  | some (msg, lineno) =>
    ⟨false, [], none,
      some ("Template syntax error: " ++ msg ++ " at line " ++ toString lineno),
      false, false⟩
  | none =>
    ⟨true,
      extractVariables tc (env.findUndeclared tc),
      some (renderTemplate env.render (simplifiedTemplate tc)
        (generateDemoValues tc (env.findUndeclared tc))),
      none,
      hasConditionalsIn tc,
      hasLoopsIn tc⟩

/-- Association lookup in an override or demo-value mapping. -/
def lookupVal : List (String × JValue) → String → Option JValue
  | [], _ => none
  | (k, v) :: rest, n => if k == n then some v else lookupVal rest n

/-- Override application of the host entry point: replace a variable's
default value when the override mapping carries its name. -/
def overrideVar (ov : List (String × JValue)) (v : VariableInfo) : VariableInfo :=
  match lookupVal ov v.name with
  | some x => ⟨v.name, v.type, x⟩
  | none => v

/-- The host entry point's stdin branch: analyze, then, when the override
mapping is nonempty, rewrite the default values of matching variables in
the returned list. -/
def mainProcess (env : Engine) (template : String)
    (overrides : List (String × JValue)) : ProcessResult :=
  let result := analyzeTemplate env template
  if overrides.isEmpty then result
  else
    ⟨result.success, result.vars.map (overrideVar overrides), result.demo_sql,
      result.error, result.has_conditionals, result.has_loops⟩

/-! ### Engine oracles used at concrete inputs

The engine is external to the repository; the oracles below fix its
behaviour at the concrete calls the theorems make, agreeing with the real
jinja2 engine there. -/

/-- An engine parse that accepts every template. -/
def parseOk : String → Option (String × Nat) := fun _ => none

/-- Python str rendering of a demo value as substituted into text. -/
def jvalStr : JValue → String
  | JValue.intV n => toString n
  | JValue.strV s => s
  | JValue.boolV b => if b then "True" else "False"
  | JValue.listV _ => "[]"

/-- A substituting render oracle: replace each expression site by the
rendered value its stripped name maps to, the empty text when unmapped
(the engine's behaviour on the plain-name templates used below). -/
def substRender (tc : String) (vals : List (String × JValue)) : Option String :=
  some (String.mk (scanSub tc.data
    (fun p => (exprMatchAt tc.data p).map fun pr =>
      ((match lookupVal vals (String.mk (pyStrip pr.1)) with
        | some v => (jvalStr v).data
        | none => []), pr.2))
    (tc.data.length + 1) 0))

/-- A render oracle that always fails, as the engine does when evaluation
raises. -/
def failRender : String → List (String × JValue) → Option String := fun _ _ => none

/-! ### Substring lemmas for the renderer's cleanup pass -/

theorem hasPre_iff (p : List Char) : ∀ s, hasPre p s = true ↔ ∃ t, s = p ++ t := by
  induction p with
  | nil => intro s; simp [hasPre]
  | cons a as ih =>
    intro s
    cases s with
    | nil => simp [hasPre]
    | cons b bs =>
      simp only [hasPre, Bool.and_eq_true, beq_iff_eq, ih]
      constructor
      · rintro ⟨h1, t, h2⟩
        exact ⟨t, by rw [h2, h1, List.cons_append]⟩
      · rintro ⟨t, h⟩
        injection h with h1 h2
        exact ⟨h1.symm, t, h2⟩

theorem hasSub_iff (p : List Char) : ∀ s, hasSub p s = true ↔ ∃ a b, s = a ++ p ++ b := by
  intro s
  induction s with
  | nil =>
    simp only [hasSub, List.isEmpty_iff]
    constructor
    · intro h; exact ⟨[], [], by simp [h]⟩
    · rintro ⟨a, b, h⟩
      rcases List.append_eq_nil.mp h.symm with ⟨h1, h2⟩
      exact (List.append_eq_nil.mp h1).2
  | cons c cs ih =>
    simp only [hasSub, Bool.or_eq_true, hasPre_iff, ih]
    constructor
    · rintro (⟨t, h⟩ | ⟨a, b, h⟩)
      · exact ⟨[], t, by simpa using h⟩
      · exact ⟨c :: a, b, by rw [h]; rfl⟩
    · rintro ⟨a, b, h⟩
      cases a with
      | nil => left; exact ⟨b, by simpa using h⟩
      | cons a0 as =>
        right
        injection h with h1 h2
        exact ⟨as, b, h2⟩

theorem hasSub_of_hasPre {p s : List Char} (h : hasPre p s = true) : hasSub p s = true := by
  rcases (hasPre_iff p s).mp h with ⟨t, rfl⟩
  exact (hasSub_iff p _).mpr ⟨[], t, by simp⟩

theorem hasSub_cons_of {p : List Char} (c : Char) {s : List Char}
    (h : hasSub p s = true) : hasSub p (c :: s) = true := by
  simp [hasSub, h]

theorem hasPre_append_cons {p : List Char} {ch : Char} (hc : ch ∉ p) :
    ∀ a b, hasPre p (a ++ ch :: b) = true → hasPre p a = true := by
  induction p with
  | nil => intro a b _; simp [hasPre_iff]
  | cons p0 ps ih =>
    intro a b h
    cases a with
    | nil =>
      simp only [List.nil_append, hasPre, Bool.and_eq_true, beq_iff_eq] at h
      exact absurd (h.1 ▸ List.mem_cons_self p0 ps) hc
    | cons a0 as =>
      simp only [List.cons_append, hasPre, Bool.and_eq_true] at h ⊢
      exact ⟨h.1, ih (fun hm => hc (List.mem_cons_of_mem _ hm)) as b h.2⟩

theorem hasSub_append_cons {p : List Char} {ch : Char} (hc : ch ∉ p) :
    ∀ a b, hasSub p (a ++ ch :: b) = true → hasSub p a = true ∨ hasSub p b = true := by
  intro a
  induction a with
  | nil =>
    intro b h
    simp only [List.nil_append, hasSub, Bool.or_eq_true] at h
    rcases h with h | h
    · cases p with
      | nil => left; simp [hasSub]
      | cons p0 ps =>
        simp only [hasPre, Bool.and_eq_true, beq_iff_eq] at h
        exact absurd (h.1 ▸ List.mem_cons_self p0 ps) hc
    · right; exact h
  | cons a0 as ih =>
    intro b h
    simp only [List.cons_append, hasSub, Bool.or_eq_true] at h
    rcases h with h | h
    · left
      exact hasSub_of_hasPre (hasPre_append_cons hc (a0 :: as) b (by simpa using h))
    · rcases ih b h with h' | h'
      · left; exact hasSub_cons_of a0 h'
      · right; exact h'

theorem hasSub_of_part {p l : List Char} (a b : List Char)
    (h : hasSub p l = true) : hasSub p (a ++ l ++ b) = true := by
  rcases (hasSub_iff p l).mp h with ⟨x, y, rfl⟩
  exact (hasSub_iff p _).mpr ⟨a ++ x, y ++ b, by simp⟩

theorem splitLines_ne_nil : ∀ cs, splitLines cs ≠ [] := by
  intro cs
  cases cs with
  | nil => simp [splitLines]
  | cons c cs =>
    simp only [splitLines]
    split
    · simp
    · cases h : splitLines cs <;> simp [consHead]

theorem splitLines_head_pre : ∀ cs : List Char, ∃ t, cs = (splitLines cs).headD [] ++ t := by
  intro cs
  induction cs with
  | nil => exact ⟨[], rfl⟩
  | cons c cs ih =>
    simp only [splitLines]
    split
    · exact ⟨c :: cs, by simp⟩
    · rcases h : splitLines cs with _ | ⟨h0, t0⟩
      · exact absurd h (splitLines_ne_nil cs)
      · rcases ih with ⟨t, ht⟩
        rw [h] at ht
        exact ⟨t, by simp [consHead, List.headD] at ht ⊢; exact ht⟩

theorem mem_splitLines_parts : ∀ (cs : List Char) (l : List Char),
    l ∈ splitLines cs → ∃ a b, cs = a ++ l ++ b := by
  intro cs
  induction cs with
  | nil =>
    intro l hl
    simp [splitLines] at hl
    exact ⟨[], [], by simp [hl]⟩
  | cons c cs ih =>
    intro l hl
    simp only [splitLines] at hl
    by_cases hc : c = '\n'
    · rw [if_pos hc] at hl
      rcases List.mem_cons.mp hl with rfl | hl
      · exact ⟨[], c :: cs, by simp⟩
      · rcases ih l hl with ⟨a, b, rfl⟩
        exact ⟨c :: a, b, by simp⟩
    · rw [if_neg hc] at hl
      rcases h : splitLines cs with _ | ⟨h0, t0⟩
      · exact absurd h (splitLines_ne_nil cs)
      · rw [h] at hl
        simp only [consHead] at hl
        rcases List.mem_cons.mp hl with rfl | hl
        · rcases splitLines_head_pre cs with ⟨t, ht⟩
          rw [h] at ht
          simp only [List.headD] at ht
          exact ⟨[], t, by simp [ht]⟩
        · rcases ih l (by rw [h]; exact List.mem_cons_of_mem _ hl) with ⟨a, b, rfl⟩
          exact ⟨c :: a, b, by simp⟩

theorem hasSub_joinLines {p : List Char} (hnl : '\n' ∉ p) (hne : p ≠ []) :
    ∀ ls, hasSub p (joinLines ls) = true → ∃ l ∈ ls, hasSub p l = true := by
  intro ls
  induction ls with
  | nil =>
    intro h
    simp only [joinLines, hasSub, List.isEmpty_iff] at h
    exact absurd h hne
  | cons l ls ih =>
    intro h
    cases ls with
    | nil => exact ⟨l, by simp, by simpa [joinLines] using h⟩
    | cons l2 ls2 =>
      simp only [joinLines] at h
      rcases hasSub_append_cons hnl l (joinLines (l2 :: ls2)) h with h' | h'
      · exact ⟨l, by simp, h'⟩
      · rcases ih h' with ⟨x, hx, hsx⟩
        exact ⟨x, List.mem_cons_of_mem _ hx, hsx⟩

/-! ### Discovery-order bookkeeping for the extractor -/

/-- First-occurrence deduplication of a name stream against a seen set. -/
def dedupFirst : List String → List String → List String
  | _, [] => []
  | seen, n :: ns =>
    if seen.contains n then dedupFirst seen ns else n :: dedupFirst (n :: seen) ns

/-- The seen set left behind by first-occurrence deduplication. -/
def seenAfter : List String → List String → List String
  | seen, [] => seen
  | seen, n :: ns =>
    if seen.contains n then seenAfter seen ns else seenAfter (n :: seen) ns

/-- The expression-site name stream, in match order with duplicates. -/
def exprNames (tc : String) (kv : List String) : List String :=
  (exprScan tc.data).filterMap (exprNameOf kv)

/-- The conditional-site name stream, in match order with duplicates. -/
def condNames (tc : String) : List String := extractConditionalVariables tc

theorem extractVarsExpr_names (tc : String) (kv : List String) :
    ∀ (ms : List (List Char)) (seen : List String),
      (extractVarsExpr tc kv seen ms).2.map VariableInfo.name =
          dedupFirst seen (ms.filterMap (exprNameOf kv)) ∧
        (extractVarsExpr tc kv seen ms).1 =
          seenAfter seen (ms.filterMap (exprNameOf kv)) := by
  intro ms
  induction ms with
  | nil => intro seen; simp [extractVarsExpr, dedupFirst, seenAfter]
  | cons m ms ih =>
    intro seen
    cases hm : exprNameOf kv m with
    | none => simpa [extractVarsExpr, hm, List.filterMap_cons] using ih seen
    | some base =>
      by_cases hs : base ∈ seen <;>
        simp [extractVarsExpr, hm, List.filterMap_cons, dedupFirst, seenAfter, hs, ih, mkVar]

theorem extractVarsCond_names (tc : String) :
    ∀ (ns : List String) (seen : List String),
      (extractVarsCond tc seen ns).map VariableInfo.name = dedupFirst seen ns := by
  intro ns
  induction ns with
  | nil => intro seen; simp [extractVarsCond, dedupFirst]
  | cons n ns ih =>
    intro seen
    by_cases hs : n ∈ seen <;> simp [extractVarsCond, dedupFirst, hs, ih, mkVar]

theorem dedupFirst_append : ∀ (a b seen : List String),
    dedupFirst seen (a ++ b) = dedupFirst seen a ++ dedupFirst (seenAfter seen a) b := by
  intro a
  induction a with
  | nil => intro b seen; simp [dedupFirst, seenAfter]
  | cons n ns ih =>
    intro b seen
    by_cases hs : n ∈ seen <;> simp [dedupFirst, seenAfter, hs, ih]

/-! ### Shape lemmas for emitted variables -/

theorem getDefaultValue_not_listV (t : String) (es : List String) :
    getDefaultValue t ≠ JValue.listV es := by
  unfold getDefaultValue defaultsGet
  repeat' split
  all_goals simp

theorem extractVarsExpr_shape (tc : String) (kv : List String) :
    ∀ (ms : List (List Char)) (seen : List String) (v : VariableInfo),
      v ∈ (extractVarsExpr tc kv seen ms).2 → ∃ n, v = mkVar tc n := by
  intro ms
  induction ms with
  | nil => intro seen v hv; simp [extractVarsExpr] at hv
  | cons m ms ih =>
    intro seen v hv
    cases hm : exprNameOf kv m with
    | none =>
      simp only [extractVarsExpr, hm] at hv
      exact ih seen v hv
    | some base =>
      simp only [extractVarsExpr, hm] at hv
      by_cases hs : seen.contains base = true
      · rw [if_pos hs] at hv
        exact ih seen v hv
      · rw [if_neg hs] at hv
        rcases List.mem_cons.mp hv with rfl | hv
        · exact ⟨base, rfl⟩
        · exact ih (base :: seen) v hv

theorem extractVarsCond_shape (tc : String) :
    ∀ (ns : List String) (seen : List String) (v : VariableInfo),
      v ∈ extractVarsCond tc seen ns → ∃ n, v = mkVar tc n := by
  intro ns
  induction ns with
  | nil => intro seen v hv; simp [extractVarsCond] at hv
  | cons n ns ih =>
    intro seen v hv
    rw [extractVarsCond] at hv
    by_cases hs : seen.contains n = true
    · rw [if_pos hs] at hv
      exact ih seen v hv
    · rw [if_neg hs] at hv
      rcases List.mem_cons.mp hv with rfl | hv
      · exact ⟨n, rfl⟩
      · exact ih (n :: seen) v hv

theorem inferVariableType_cases (n c : String) :
    inferVariableType n c = "integer" ∨ inferVariableType n c = "boolean" ∨
      inferVariableType n c = "date" ∨ inferVariableType n c = "string" := by
  unfold inferVariableType
  repeat' split
  · exact Or.inl rfl
  · exact Or.inr (Or.inl rfl)
  · exact Or.inr (Or.inr (Or.inl rfl))
  · exact Or.inr (Or.inr (Or.inr rfl))
  · exact Or.inr (Or.inr (Or.inr rfl))

theorem overrideVar_nil_map : ∀ l : List VariableInfo, l.map (overrideVar []) = l := by
  intro l
  induction l with
  | nil => rfl
  | cons v vs ih => simp [overrideVar, lookupVal, ih]

/-! ### Renderer cleanup preserves absence of a newline-free pattern -/

theorem renderClean_no_sub {p : List Char} (hnl : '\n' ∉ p) (hne : p ≠ [])
    (r : List Char) (h : hasSub p r = false) :
    hasSub p (joinLines ((splitLines r).filter keepLine)) = false := by
  cases hx : hasSub p (joinLines ((splitLines r).filter keepLine)) with
  | false => rfl
  | true =>
    obtain ⟨l, hl, hsl⟩ := hasSub_joinLines hnl hne _ hx
    have hl2 : l ∈ splitLines r := List.mem_of_mem_filter hl
    obtain ⟨a, b, rfl⟩ := mem_splitLines_parts r l hl2
    have := hasSub_of_part a b hsl
    rw [h] at this
    exact this.symm

/-! ### Concrete templates and engine oracles for the scenario claims -/

def tmplC1 : String :=
  "SELECT * FROM t WHERE a=1 \x7b% if debug_mode %\x7d AND dbg=1\x7b% endif %\x7d"

def engC1 : Engine := ⟨parseOk, fun _ => ["debug_mode"], substRender⟩

def tmplC2 : String := "SELECT * FROM users WHERE id = \x7b\x7b user_id \x7d\x7d"

def engC2 : Engine := ⟨parseOk, fun _ => ["user_id"], substRender⟩

def tmplC3 : String := "SELECT \x7b\x7b user_id \x7d\x7d"

def engC3 : Engine := ⟨parseOk, fun _ => ["user_id"], substRender⟩

def ovC3 : List (String × JValue) := [("user_id", JValue.intV 7)]

/-- A template whose simplified form keeps a for-tag; the real engine's
render of that form raises (iterating the undeclared name items), which the
failing render oracle reflects. -/
def tmplC4 : String :=
  "\x7b% if show_x %\x7d\nA\n\x7b% endif %\x7d\n\x7b% for i in items %\x7dB\x7b% endfor %\x7d"

def engC4 : Engine := ⟨parseOk, fun _ => ["show_x", "items"], failRender⟩

/-- An included block whose else branch contains a nested block on its own
lines followed by further else-branch content. -/
def tmplC5 : String :=
  "\x7b% if show_a %\x7d\nA\n\x7b% else %\x7d\n\x7b% if x %\x7d\n\x7b% endif %\x7d\nB\n\x7b% endif %\x7d"

def tmplC9 : String := "\x7b% if flag %\x7d\x7b\x7b user \x7d\x7d\x7b% endif %\x7d"

def engC9 : Engine := ⟨parseOk, fun _ => ["flag", "user"], substRender⟩

def tmplC10 : String := "\x7b\x7b count \x7d\x7d"

def engC10 : Engine := ⟨parseOk, fun _ => ["count"], substRender⟩

/-! ### C1 -/

/-- C1 counterexample: on the one-line Scenario B template the analysis
returns the empty demo SQL, not the text outside the excluded block — the
text preceding the opening if-tag on the same line is lost. -/
theorem c1_counterexample :
    (analyzeTemplate engC1 tmplC1).demo_sql = some "" ∧
      (analyzeTemplate engC1 tmplC1).demo_sql ≠ some "SELECT * FROM t WHERE a=1" := by
  constructor
  · decide
  · decide

/-- C1 amended: the guard debug_mode is classified exclude, but the
exclude path of the line scanner skips every line of the block including
the whole line carrying the opening tag, so the text before the tag is
dropped and the returned demo SQL is the empty string. -/
theorem c1_amended :
    shouldIncludeCondition "debug_mode" = false ∧
      (analyzeTemplate engC1 tmplC1).demo_sql = some "" ∧
      (analyzeTemplate engC1 tmplC1).vars =
        [⟨"debug_mode", "string", JValue.strV "\x27demo_value\x27"⟩] := by
  refine ⟨by decide, by decide, by decide⟩

/-! ### C2 -/

/-- C2 counterexample: on the Scenario A template the single variable is
not typed integer with default 42, and the demo SQL is not the claimed
text — the word-boundary pattern does not treat the underscore of user_id
as a boundary, so the integer keyword id never matches. -/
theorem c2_counterexample :
    (analyzeTemplate engC2 tmplC2).vars ≠ [⟨"user_id", "integer", JValue.intV 42⟩] ∧
      (analyzeTemplate engC2 tmplC2).demo_sql ≠ some "SELECT * FROM users WHERE id = 42" := by
  constructor
  · decide
  · decide

/-- C2 amended: analysis of the Scenario A template returns exactly one
variable named user_id with inferred type string and the quoted default
demo_value, and the demo SQL substitutes that default. -/
theorem c2_amended :
    inferVariableType "user_id" tmplC2 = "string" ∧
      (analyzeTemplate engC2 tmplC2).vars =
        [⟨"user_id", "string", JValue.strV "\x27demo_value\x27"⟩] ∧
      (analyzeTemplate engC2 tmplC2).demo_sql =
        some "SELECT * FROM users WHERE id = \x27demo_value\x27" := by
  refine ⟨by decide, by decide, by decide⟩

/-! ### C3 -/

/-- C3 counterexample: with an override mapping user_id to 7 the returned
variable list carries 7, yet the demo SQL was rendered from the
synthesized default, not the override. -/
theorem c3_counterexample :
    (mainProcess engC3 tmplC3 ovC3).vars = [⟨"user_id", "string", JValue.intV 7⟩] ∧
      (mainProcess engC3 tmplC3 ovC3).demo_sql = some "SELECT \x27demo_value\x27" ∧
      (mainProcess engC3 tmplC3 ovC3).demo_sql ≠ some "SELECT 7" := by
  refine ⟨by decide, by decide, by decide⟩

/-- C3 amended: overrides are applied after analysis finishes — they
replace the default values of matching variables in the returned list
(unknown keys are ignored), and the demo SQL is exactly the one the
analysis rendered from the synthesized defaults, unaffected by overrides. -/
theorem c3_amended :
    ∀ (env : Engine) (t : String) (ov : List (String × JValue)),
      (mainProcess env t ov).demo_sql = (analyzeTemplate env t).demo_sql ∧
        (mainProcess env t ov).vars = (analyzeTemplate env t).vars.map (overrideVar ov) := by
  intro env t ov
  unfold mainProcess
  by_cases h : ov.isEmpty
  · have hnil : ov = [] := List.isEmpty_iff.mp h
    subst hnil
    simp [overrideVar_nil_map]
  · simp [h]

/-! ### C4 -/

/-- C4 counterexample: a successful analysis whose delegated render fails
returns the simplified text verbatim as demo SQL, and that text still
contains an opening tag fragment — the fallback cleanup removes only
conditional tags, not for-tags. -/
theorem c4_counterexample :
    (analyzeTemplate engC4 tmplC4).success = true ∧
      (analyzeTemplate engC4 tmplC4).demo_sql =
        some "A\n\x7b% for i in items %\x7dB\x7b% endfor %\x7d" ∧
      strHas "A\n\x7b% for i in items %\x7dB\x7b% endfor %\x7d" "\x7b%" = true := by
  refine ⟨by decide, by decide, by decide⟩

/-- C4 amended: the demo SQL is free of tag delimiters whenever the
delegated render succeeds and the engine's rendered text is itself free of
them; when the render fails the demo SQL is the input text verbatim and may
retain non-conditional tags. -/
theorem c4_amended :
    ∀ (rnd : String → List (String × JValue) → Option String) (tc : String)
      (vals : List (String × JValue)) (r : String),
      rnd tc vals = some r → strHas r "\x7b%" = false → strHas r "%\x7d" = false →
      strHas (renderTemplate rnd tc vals) "\x7b%" = false ∧
        strHas (renderTemplate rnd tc vals) "%\x7d" = false := by
  intro rnd tc vals r hr h1 h2
  have hout : renderTemplate rnd tc vals =
      String.mk (joinLines ((splitLines r.data).filter keepLine)) := by
    simp [renderTemplate, hr]
  rw [hout]
  exact ⟨renderClean_no_sub (by decide) (by decide) r.data h1,
    renderClean_no_sub (by decide) (by decide) r.data h2⟩

/-- C4 amended witness: the amended theorem applied to a render oracle
producing a tag-free text. -/
theorem c4_amended_witness :
    ((fun (_ : String) (_ : List (String × JValue)) => some "SELECT 1") "x" [] =
        some "SELECT 1") ∧
      strHas "SELECT 1" "\x7b%" = false ∧ strHas "SELECT 1" "%\x7d" = false ∧
      (strHas (renderTemplate (fun _ _ => some "SELECT 1") "x" []) "\x7b%" = false ∧
        strHas (renderTemplate (fun _ _ => some "SELECT 1") "x" []) "%\x7d" = false) :=
  ⟨rfl, by decide, by decide,
    c4_amended (fun _ _ => some "SELECT 1") "x" [] "SELECT 1" rfl (by decide) (by decide)⟩

/-! ### C5 -/

/-- C5 counterexample: simplifying a template whose included block's else
branch holds a nested block on its own lines followed by the content B
leaves B in the output — B belongs to the else branch, yet it survives
because the skip stops at the nested endif line. -/
theorem c5_counterexample :
    simplifyConditionalsForDemo tmplC5 = "A\nB" ∧
      strHas (simplifyConditionalsForDemo tmplC5) "B" = true := by
  refine ⟨by decide, by decide⟩

/-- C5 amended: on a depth-zero else or elif line the included-block scan
stops and discards lines only up to and including the first following line
containing an endif fragment, with no nesting bookkeeping, so else-branch
content after a nested endif line survives. -/
theorem c5_amended :
    ∀ (l : List Char) (ls : List (List Char)),
      hasSub elseTagL l = true → hasSub ifTagL l = false → hasSub endifTagL l = false →
      includeScan 0 (l :: ls) = ([], skipToEndif ls) ∧
        ∀ (pre : List (List Char)) (m : List Char) (post : List (List Char)),
          (∀ x ∈ pre, hasSub endifTagL x = false) → hasSub endifTagL m = true →
          skipToEndif (pre ++ m :: post) = post := by
  intro l ls h1 h2 h3
  constructor
  · simp [includeScan, h1, h2, h3]
  · intro pre
    induction pre with
    | nil => intro m post _ hm; simp [skipToEndif, hm]
    | cons x xs ih =>
      intro m post hpre hm
      have hx : hasSub endifTagL x = false := hpre x (List.mem_cons_self x xs)
      simp only [List.cons_append, skipToEndif, hx]
      exact ih m post (fun y hy => hpre y (List.mem_cons_of_mem _ hy)) hm

/-- C5 amended witness: the amended theorem applied to a concrete else
line and a concrete endif line. -/
theorem c5_amended_witness :
    hasSub elseTagL "\x7b% else %\x7d".data = true ∧
      hasSub ifTagL "\x7b% else %\x7d".data = false ∧
      hasSub endifTagL "\x7b% else %\x7d".data = false ∧
      includeScan 0 ["\x7b% else %\x7d".data] = ([], skipToEndif []) ∧
      skipToEndif ([] ++ "\x7b% endif %\x7d".data :: []) = [] := by
  refine ⟨by decide, by decide, by decide, ?_, ?_⟩
  · exact (c5_amended "\x7b% else %\x7d".data [] (by decide) (by decide) (by decide)).1
  · exact (c5_amended "\x7b% else %\x7d".data [] (by decide) (by decide) (by decide)).2
      [] "\x7b% endif %\x7d".data [] (by intro x hx; simp at hx) (by decide)

/-! ### C6 -/

/-- C6: when the engine's parse rejects the template with a message and a
line number, the analysis returns failure with no variables, no demo SQL,
and an error embedding that message and line number. -/
theorem c6_syntax_error :
    ∀ (env : Engine) (tc msg : String) (lineno : Nat),
      env.parse tc = some (msg, lineno) →
      analyzeTemplate env tc =
        ⟨false, [], none,
          some ("Template syntax error: " ++ msg ++ " at line " ++ toString lineno),
          false, false⟩ := by
  intro env tc msg lineno hp
  simp [analyzeTemplate, hp]

def engC6 : Engine := ⟨fun _ => some ("unexpected end of template", 3), fun _ => [], failRender⟩

/-- C6 witness: the syntax-error theorem applied to a concrete engine and
template. -/
theorem c6_syntax_error_witness :
    engC6.parse "\x7b% if x %\x7d" = some ("unexpected end of template", 3) ∧
      analyzeTemplate engC6 "\x7b% if x %\x7d" =
        ⟨false, [], none,
          some "Template syntax error: unexpected end of template at line 3",
          false, false⟩ := by
  refine ⟨rfl, ?_⟩
  rw [c6_syntax_error engC6 "\x7b% if x %\x7d" "unexpected end of template" 3 rfl]
  decide

/-! ### C7 -/

/-- C7: when the parse succeeds and the delegated render of the simplified
template fails, the analysis still succeeds, the demo SQL is the
simplified-but-unsubstituted text, and the variable list is the extraction
result, which does not depend on the render at all. -/
theorem c7_render_failure :
    ∀ (env : Engine) (tc : String),
      env.parse tc = none →
      env.render (simplifiedTemplate tc)
          (generateDemoValues tc (env.findUndeclared tc)) = none →
      (analyzeTemplate env tc).success = true ∧
        (analyzeTemplate env tc).demo_sql = some (simplifiedTemplate tc) ∧
        (analyzeTemplate env tc).vars = extractVariables tc (env.findUndeclared tc) := by
  intro env tc hp hr
  simp [analyzeTemplate, hp, renderTemplate, hr]

def engC7 : Engine := ⟨fun _ => none, fun _ => [], failRender⟩

/-- C7 witness: the render-failure theorem applied to a concrete engine and
template. -/
theorem c7_render_failure_witness :
    engC7.parse "SELECT 1" = none ∧
      engC7.render (simplifiedTemplate "SELECT 1")
          (generateDemoValues "SELECT 1" (engC7.findUndeclared "SELECT 1")) = none ∧
      ((analyzeTemplate engC7 "SELECT 1").success = true ∧
        (analyzeTemplate engC7 "SELECT 1").demo_sql = some (simplifiedTemplate "SELECT 1") ∧
        (analyzeTemplate engC7 "SELECT 1").vars =
          extractVariables "SELECT 1" (engC7.findUndeclared "SELECT 1")) :=
  ⟨rfl, rfl, c7_render_failure engC7 "SELECT 1" rfl rfl⟩

/-! ### C8 -/

/-- C8: any guard whose lowercased text contains an exclude keyword is
classified exclude, whatever else it contains — the exclude list is
checked before the include list. -/
theorem c8_exclude_precedence :
    ∀ (cond k : String), k ∈ excludeKeywords →
      hasSub k.data (lowerL cond.data) = true →
      shouldIncludeCondition cond = false := by
  intro cond k hk hsub
  unfold shouldIncludeCondition
  have hx : (excludeKeywords.any fun kk => hasSub kk.data (lowerL cond.data)) = true :=
    List.any_eq_true.mpr ⟨k, hk, hsub⟩
  simp [hx]

/-- C8 witness: the guard is_debug contains both the include keyword is_
and the exclude keyword debug, and is classified exclude. -/
theorem c8_exclude_precedence_witness :
    "debug" ∈ excludeKeywords ∧
      hasSub "debug".data (lowerL "is_debug".data) = true ∧
      hasSub "is_".data (lowerL "is_debug".data) = true ∧
      "is_" ∈ includeKeywords ∧
      shouldIncludeCondition "is_debug" = false :=
  ⟨by decide, by decide, by decide, by decide,
    c8_exclude_precedence "is_debug" "debug" (by decide) (by decide)⟩

/-! ### C9 -/

/-- C9 counterexample: in the concrete template the conditional-only name
flag occurs textually before the expression name user, yet the returned
variable order lists user first — conditional-site variables always follow
expression-site variables regardless of textual position. -/
theorem c9_counterexample :
    (analyzeTemplate engC9 tmplC9).vars.map VariableInfo.name = ["user", "flag"] ∧
      findIdx "flag".data tmplC9.data = some 6 ∧
      findIdx "user".data tmplC9.data = some 16 ∧ (6 : Nat) < 16 := by
  refine ⟨by decide, by decide, by decide, by decide⟩

/-- C9 amended: the emitted name sequence is the first-occurrence
deduplication of the expression-site name stream followed by the
conditional-site name stream — first-occurrence order within each pass,
with every expression-derived name before every conditional-only name. -/
theorem c9_amended (tc : String) (kv : List String) :
    (extractVariables tc kv).map VariableInfo.name =
      dedupFirst [] (exprNames tc kv ++ condNames tc) := by
  unfold extractVariables
  rw [List.map_append, dedupFirst_append,
    (extractVarsExpr_names tc kv (exprScan tc.data) []).1,
    (extractVarsExpr_names tc kv (exprScan tc.data) []).2,
    extractVarsCond_names]
  rfl

/-! ### C10 -/

/-- C10: every variable an analysis emits has one of the four producible
types — integer, boolean, date or string — never the type list, and its
default value is never a list value. -/
theorem c10_closed_types :
    ∀ (env : Engine) (tc : String) (v : VariableInfo),
      v ∈ (analyzeTemplate env tc).vars →
      (v.type = "integer" ∨ v.type = "boolean" ∨ v.type = "date" ∨ v.type = "string") ∧
        v.type ≠ "list" ∧ ∀ es, v.default_value ≠ JValue.listV es := by
  intro env tc v hv
  have hshape : ∃ n, v = mkVar tc n := by
    cases hp : env.parse tc with
    | some pr =>
      simp only [analyzeTemplate, hp] at hv
      simp at hv
    | none =>
      simp only [analyzeTemplate, hp] at hv
      unfold extractVariables at hv
      rcases List.mem_append.mp hv with hv' | hv'
      · exact extractVarsExpr_shape tc (env.findUndeclared tc) _ _ v hv'
      · exact extractVarsCond_shape tc _ _ v hv'
  obtain ⟨n, rfl⟩ := hshape
  have ht : (mkVar tc n).type = inferVariableType n tc := rfl
  refine ⟨?_, ?_, ?_⟩
  · rw [ht]; exact inferVariableType_cases n tc
  · rcases inferVariableType_cases n tc with h | h | h | h <;> rw [ht, h] <;> decide
  · intro es
    have hd : (mkVar tc n).default_value = getDefaultValue (inferVariableType n tc) := rfl
    rw [hd]
    exact getDefaultValue_not_listV _ es

/-- C10 witness: the closed-types theorem applied to the variable a
concrete analysis emits. -/
theorem c10_closed_types_witness :
    (⟨"count", "integer", JValue.intV 42⟩ : VariableInfo) ∈
        (analyzeTemplate engC10 tmplC10).vars ∧
      (⟨"count", "integer", JValue.intV 42⟩ : VariableInfo).type ≠ "list" :=
  ⟨by decide,
    (c10_closed_types engC10 tmplC10 ⟨"count", "integer", JValue.intV 42⟩ (by decide)).2.1⟩
